import Mathlib

/-!
# Verification of `resource.pb.go` (`opencensus.proto.resource.v1.Resource`)

Shallow embedding of the generated Go bindings of the `Resource` message:
the struct, its zero value, `Reset`, the nil-safe accessors, `Descriptor`,
the `XXX_*` wrappers around the shared codec, the two `init` functions and
the embedded file descriptor.

Conventions of the embedding
* a Go `string` / `[]byte` is a list of bytes (`Fin 256`);
* a Go `map[string]string` is `none` (the nil map) or `some` association
  list with pairwise distinct keys; the order of the entries stands for the
  (unspecified) iteration order of the map;
* a `*Resource` together with the state of its pointee is an
  `Option Resource`, `none` being the nil pointer;
* a method that writes through its receiver returns the new pointee state.
-/

namespace ResourceV1

/-! ## Data model -/

/-- One octet. -/
abbrev Byte := Fin 256

/-- A Go `string`: an immutable sequence of bytes. -/
abbrev GoString := List Byte

/-- A Go `[]byte` that may be nil. -/
abbrev GoBytes := Option (List Byte)

/-- The bytes of a source literal (Go source text is UTF-8). -/
def lit (s : String) : GoString :=
  (s.toList.flatMap String.utf8EncodeChar).map (fun b => ⟨b.toNat, b.val.isLt⟩)

/-- A Go `map[string]string`: `none` is the nil map. -/
abbrev GoMap := Option (AList (fun _ : GoString => GoString))

/-- Go `len(m)` on a map; 0 for the nil map. -/
def GoMap.len : GoMap → Nat
  | none => 0
  | some a => a.entries.length

/-- Go `v, ok := m[k]`; a miss is `none`, also on the nil map. -/
def GoMap.get (m : GoMap) (k : GoString) : Option GoString :=
  match m with
  | none => none
  | some a => a.lookup k

/-- Go `for k, v := range m`: the entries visited; none for the nil map. -/
def GoMap.range : GoMap → List (GoString × GoString)
  | none => []
  | some a => a.entries.map (fun e => (e.1, e.2))

/-- Go `m == nil` on a map. -/
def GoMap.isNil : GoMap → Bool
  | none => true
  | some _ => false

/-- Go `m[k] = v` where the map is allocated first when it is nil (what a
decoder does before it stores an entry). -/
def GoMap.set (m : GoMap) (k v : GoString) : GoMap :=
  match m with
  | none => some (AList.insert k v ∅)
  | some a => some (a.insert k v)

/-- The struct `Resource` (source lines 24-32). `Type_` is the field `Type`,
renamed because `Type` is reserved; `XXX_NoUnkeyedLiteral struct{}` carries no
data and is a `Unit`. The default values are those of the literal
`Resource{}`. -/
structure Resource where
  Type_ : GoString := []
  Labels : GoMap := none
  XXX_NoUnkeyedLiteral : Unit := ()
  XXX_unrecognized : GoBytes := none
  XXX_sizecache : Int := 0
deriving DecidableEq

/-- A `*Resource` with the state of what it points to; `none` is nil. -/
abbrev Ptr := Option Resource

/-- A run-time panic of the Go program. -/
inductive GoPanic where
  | nilDereference
deriving DecidableEq, Repr

/-! ## Methods of `*Resource` -/

/-- `func (m *Resource) Reset() { *m = Resource{} }`: the new state of the
pointee; storing through a nil receiver panics. -/
def Reset : Ptr → Except GoPanic Resource
  | some _ => .ok {}
  | none => .error .nilDereference

/-- `func (m *Resource) GetType() string`. -/
def GetType (m : Ptr) : GoString :=
  match m with
  | some r => r.Type_
  | none => lit ""

/-- `func (m *Resource) GetLabels() map[string]string`. -/
def GetLabels (m : Ptr) : GoMap :=
  match m with
  | some r => r.Labels
  | none => none

/-- `var fileDescriptor_584700775a2fc762 = []byte{...}` (source lines 82-99). -/
def fileDescriptor_584700775a2fc762 : List Byte := [
  0x1f, 0x8b, 0x08, 0x00, 0x00, 0x00, 0x00, 0x00, 0x02, 0xff, 0xe2, 0xd2, 0xce, 0x2f, 0x48, 0xcd,
  0x4b, 0x4e, 0xcd, 0x2b, 0x2e, 0x2d, 0xd6, 0x2f, 0x28, 0xca, 0x2f, 0xc9, 0xd7, 0x2f, 0x4a, 0x2d,
  0xce, 0x2f, 0x2d, 0x4a, 0x4e, 0xd5, 0x2f, 0x33, 0x84, 0xb3, 0xf5, 0xc0, 0x52, 0x42, 0x32, 0x08,
  0xc5, 0x10, 0x11, 0x3d, 0xb8, 0x82, 0x32, 0x43, 0xa5, 0xa5, 0x8c, 0x5c, 0x1c, 0x41, 0x50, 0xbe,
  0x90, 0x10, 0x17, 0x4b, 0x49, 0x65, 0x41, 0xaa, 0x04, 0xa3, 0x02, 0xa3, 0x06, 0x67, 0x10, 0x98,
  0x2d, 0xe4, 0xc5, 0xc5, 0x96, 0x93, 0x98, 0x94, 0x9a, 0x53, 0x2c, 0xc1, 0xa4, 0xc0, 0xac, 0xc1,
  0x6d, 0x64, 0xa4, 0x87, 0xcf, 0x3c, 0x3d, 0x98, 0x59, 0x7a, 0x3e, 0x60, 0x4d, 0xae, 0x79, 0x25,
  0x45, 0x95, 0x41, 0x50, 0x13, 0xa4, 0x2c, 0xb9, 0xb8, 0x91, 0x84, 0x85, 0x04, 0xb8, 0x98, 0xb3,
  0x53, 0x2b, 0xa1, 0xb6, 0x81, 0x98, 0x42, 0x22, 0x5c, 0xac, 0x65, 0x89, 0x39, 0xa5, 0xa9, 0x12,
  0x4c, 0x60, 0x31, 0x08, 0xc7, 0x8a, 0xc9, 0x82, 0xd1, 0xa9, 0x92, 0x4b, 0x3e, 0x33, 0x1f, 0xaf,
  0xd5, 0x4e, 0xbc, 0x30, 0xbb, 0x03, 0x40, 0x52, 0x01, 0x8c, 0x51, 0xae, 0xe9, 0x99, 0x25, 0x19,
  0xa5, 0x49, 0x7a, 0xc9, 0xf9, 0xb9, 0xfa, 0x10, 0x5d, 0xba, 0x99, 0x79, 0xc5, 0x25, 0x45, 0xa5,
  0xb9, 0xa9, 0x79, 0x25, 0x89, 0x25, 0x99, 0xf9, 0x79, 0xfa, 0x08, 0x03, 0x75, 0x21, 0x01, 0x99,
  0x9e, 0x9a, 0xa7, 0x9b, 0x8e, 0x12, 0x9e, 0x49, 0x6c, 0x60, 0x19, 0x63, 0x40, 0x00, 0x00, 0x00,
  0xff, 0xff, 0x8e, 0x11, 0xaf, 0xda, 0x76, 0x01, 0x00, 0x00]

/-- `func (*Resource) Descriptor() ([]byte, []int)`; the receiver is unnamed
and unused. -/
def Descriptor (_ : Ptr) : List Byte × List Int :=
  (fileDescriptor_584700775a2fc762, [0])

/-- The last four bytes of a byte string read as a little-endian 32-bit
unsigned integer (the ISIZE trailer of a gzip member); 0 when there are fewer
than four bytes. -/
def trailerLE32 (bs : List Byte) : Nat :=
  match bs.reverse with
  | b3 :: b2 :: b1 :: b0 :: _ =>
      b0.val + 256 * b1.val + 256 ^ 2 * b2.val + 256 ^ 3 * b3.val
  | _ => 0

/-! ## The shared codec and the `XXX_*` wrappers -/

/-- The operations of `proto.InternalMessageInfo` that the generated code
calls (the type itself belongs to the serialization runtime). Every operation
receives the message pointer and returns, next to its Go results, the state of
the message afterwards. `Err` is the type of non-nil `error` values, `Msg` the
type of `proto.Message` values; a nil `error` is `none`. Byte slices passed
and returned are given by their contents. -/
structure InternalMessageInfo (Err Msg : Type) where
  Unmarshal : Ptr → List Byte → Ptr × Option Err
  Marshal : List Byte → Ptr → Bool → Ptr × (List Byte × Option Err)
  Merge : Ptr → Msg → Ptr
  Size : Ptr → Ptr × Int
  DiscardUnknown : Ptr → Ptr

section Wrappers

variable {Err Msg : Type}

/-- `func (m *Resource) XXX_Unmarshal(b []byte) error`, with
`xxx_messageInfo_Resource` as a parameter. -/
def XXX_Unmarshal (xxx_messageInfo_Resource : InternalMessageInfo Err Msg)
    (m : Ptr) (b : List Byte) : Ptr × Option Err :=
  xxx_messageInfo_Resource.Unmarshal m b

/-- `func (m *Resource) XXX_Marshal(b []byte, deterministic bool) ([]byte, error)`. -/
def XXX_Marshal (xxx_messageInfo_Resource : InternalMessageInfo Err Msg)
    (m : Ptr) (b : List Byte) (deterministic : Bool) : Ptr × (List Byte × Option Err) :=
  xxx_messageInfo_Resource.Marshal b m deterministic

/-- `func (m *Resource) XXX_Merge(src proto.Message)`. -/
def XXX_Merge (xxx_messageInfo_Resource : InternalMessageInfo Err Msg)
    (m : Ptr) (src : Msg) : Ptr :=
  xxx_messageInfo_Resource.Merge m src

/-- `func (m *Resource) XXX_Size() int`. -/
def XXX_Size (xxx_messageInfo_Resource : InternalMessageInfo Err Msg)
    (m : Ptr) : Ptr × Int :=
  xxx_messageInfo_Resource.Size m

/-- `func (m *Resource) XXX_DiscardUnknown()`. -/
def XXX_DiscardUnknown (xxx_messageInfo_Resource : InternalMessageInfo Err Msg)
    (m : Ptr) : Ptr :=
  xxx_messageInfo_Resource.DiscardUnknown m

end Wrappers

/-- The methods declared on `*Resource` in the source file. -/
inductive Method where
  | Reset | String | ProtoMessage | Descriptor
  | XXX_Unmarshal | XXX_Marshal | XXX_Merge | XXX_Size | XXX_DiscardUnknown
  | GetType | GetLabels
deriving DecidableEq, Repr

/-- The Go types that occur as results of the methods. -/
inductive GoResultType where
  | string | byteSlice | intSlice | int | error | mapStringString
deriving DecidableEq, Repr

/-- The declared result list of each method, as written in its `func` line. -/
def Method.results : Method → List GoResultType
  | .Reset => []
  | .String => [.string]
  | .ProtoMessage => []
  | .Descriptor => [.byteSlice, .intSlice]
  | .XXX_Unmarshal => [.error]
  | .XXX_Marshal => [.byteSlice, .error]
  | .XXX_Merge => []
  | .XXX_Size => [.int]
  | .XXX_DiscardUnknown => []
  | .GetType => [.string]
  | .GetLabels => [.mapStringString]

/-- Every method, for exhaustive checks. -/
def Method.all : List Method :=
  [.Reset, .String, .ProtoMessage, .Descriptor, .XXX_Unmarshal, .XXX_Marshal,
   .XXX_Merge, .XXX_Size, .XXX_DiscardUnknown, .GetType, .GetLabels]

/-! ## Struct tags -/

/-- One field of the struct declaration: its name, its Go type as written and
its tag, a list of `key:"value"` pairs in source order. -/
structure StructField where
  name : String
  goType : String
  tag : List (String × String)
deriving DecidableEq, Repr

/-- The field list of `type Resource struct` (source lines 24-32). -/
def Resource_fields : List StructField := [
  { name := "Type", goType := "string",
    tag := [("protobuf", "bytes,1,opt,name=type,proto3"), ("json", "type,omitempty")] },
  { name := "Labels", goType := "map[string]string",
    tag := [("protobuf", "bytes,2,rep,name=labels,proto3"), ("json", "labels,omitempty"),
            ("protobuf_key", "bytes,1,opt,name=key,proto3"),
            ("protobuf_val", "bytes,2,opt,name=value,proto3")] },
  { name := "XXX_NoUnkeyedLiteral", goType := "struct{}", tag := [("json", "-")] },
  { name := "XXX_unrecognized", goType := "[]byte", tag := [("json", "-")] },
  { name := "XXX_sizecache", goType := "int32", tag := [("json", "-")] }]

/-- The value of a tag key, as `reflect.StructTag.Lookup` gives it. -/
def StructField.lookup (f : StructField) (key : String) : Option String :=
  (f.tag.find? (fun kv => kv.1 == key)).map (fun kv => kv.2)

/-- The field of `Resource` with the given Go name. -/
def fieldNamed (n : String) : Option StructField :=
  Resource_fields.find? (fun f => f.name == n)

/-- Split a character list at every occurrence of `sep`. -/
def splitAt (sep : Char) : List Char → List (List Char)
  | [] => [[]]
  | c :: cs =>
    if c = sep then [] :: splitAt sep cs
    else
      match splitAt sep cs with
      | [] => [[c]]
      | w :: ws => (c :: w) :: ws

/-- The comma-separated items of a protobuf tag value. -/
def tagItems (v : String) : List String :=
  (splitAt ',' v.toList).map String.mk

/-- Read a non-empty string of decimal digits. -/
def readDecimal (s : String) : Option Nat :=
  if s.toList.isEmpty then none
  else s.toList.foldl
    (fun acc c => acc.bind (fun n => if c.isDigit then some (10 * n + (c.toNat - 48)) else none))
    (some 0)

/-- The cardinality rule of a field. -/
inductive Rule where
  | optional | repeated | required
deriving DecidableEq, Repr

/-- The wire metadata a protobuf tag value declares: the first item is the
wire kind, the second the field number, the remaining items give the rule
(`opt`, `rep`, `req`), the schema name (`name=...`) and the syntax flag
(`proto3`). -/
structure WireMeta where
  wireKind : String
  number : Nat
  rule : Option Rule
  origName : Option String
  proto3 : Bool
deriving DecidableEq, Repr

/-- Fold one trailing item of a tag value into the metadata. -/
def WireMeta.addItem (p : WireMeta) (item : String) : WireMeta :=
  if item = "opt" then { p with rule := some .optional }
  else if item = "rep" then { p with rule := some .repeated }
  else if item = "req" then { p with rule := some .required }
  else if item = "proto3" then { p with proto3 := true }
  else if "name=".toList.isPrefixOf item.toList then
    { p with origName := some (String.mk (item.toList.drop 5)) }
  else p

/-- Read a protobuf tag value; `none` when the wire kind or the field number
is missing or the number is not decimal. -/
def readWireMeta (v : String) : Option WireMeta :=
  match tagItems v with
  | kind :: num :: rest =>
    (readDecimal num).map (fun n =>
      rest.foldl WireMeta.addItem
        { wireKind := kind, number := n, rule := none, origName := none, proto3 := false })
  | _ => none

/-- The wire metadata that a field declares under a tag key. -/
def wireMetaOf (fieldName key : String) : Option WireMeta :=
  ((fieldNamed fieldName).bind (fun f => f.lookup key)).bind readWireMeta

/-! ## Registration at process start -/

/-- What a registration call is given as the Go type to register: the type
of its typed-nil argument. -/
inductive GoTypeRef where
  | ptrResource
  | mapStringString
deriving DecidableEq, Repr

/-- Modelled from the spec: the type registry of the serialization runtime
(`proto.RegisterType`, `proto.RegisterMapType`, `proto.RegisterFile` and the
tables behind them are not part of the source file). The registry associates
message names with structures, map-entry names with map types and file names
with compressed schema blobs. -/
structure Registry where
  types : GoString → Option GoTypeRef
  mapTypes : GoString → Option GoTypeRef
  files : GoString → Option (List Byte)

/-- Modelled from the spec: `proto.RegisterType(x, name)` associates the
fully qualified name with the structure. -/
def RegisterType (x : GoTypeRef) (name : GoString) (reg : Registry) : Registry :=
  { reg with types := fun n => if n = name then some x else reg.types n }

/-- Modelled from the spec: `proto.RegisterMapType(x, name)` associates the
name with the map type. -/
def RegisterMapType (x : GoTypeRef) (name : GoString) (reg : Registry) : Registry :=
  { reg with mapTypes := fun n => if n = name then some x else reg.mapTypes n }

/-- Modelled from the spec: `proto.RegisterFile(filename, blob)` registers
the compressed schema blob under the file name. -/
def RegisterFile (filename : GoString) (fileDescriptor : List Byte) (reg : Registry) :
    Registry :=
  { reg with files := fun n => if n = filename then some fileDescriptor else reg.files n }

/-- The first `func init()` (source lines 73-76). -/
def init_1 (reg : Registry) : Registry :=
  RegisterMapType .mapStringString (lit "opencensus.proto.resource.v1.Resource.LabelsEntry")
    (RegisterType .ptrResource (lit "opencensus.proto.resource.v1.Resource") reg)

/-- The second `func init()` (source lines 78-80). -/
def init_2 (reg : Registry) : Registry :=
  RegisterFile (lit "opencensus/proto/resource/v1/resource.proto")
    fileDescriptor_584700775a2fc762 reg

/-- Package initialisation: the `init` functions of a file run in the order
in which they appear. -/
def packageInit (reg : Registry) : Registry :=
  init_2 (init_1 reg)

/-- The empty registry. -/
def Registry.empty : Registry :=
  { types := fun _ => none, mapTypes := fun _ => none, files := fun _ => none }


/-! ## The wire format -/

/-- Modelled from the spec: the error values of the codec, which is not part
of the source file. The spec names encoding errors (a field value cannot be
represented) and decoding errors on truncated input, on invalid varint or tag
encoding (malformed input) and on a mismatch between wire tag and field type.
It does not say what the codec does with an absent message; the model reports
`absent` and leaves the message absent. -/
inductive CodecError where
  | encoding
  | truncated
  | invalidEncoding
  | typeMismatch
  | absent
deriving DecidableEq, Repr

/-- A continuation byte of UTF-8, `10xxxxxx`. -/
def isContinuation (b : Byte) : Bool :=
  decide (0x80 ≤ b.val ∧ b.val ≤ 0xBF)

/-- Modelled from the spec: the field values that can be represented. The
fields of the schema are proto3 strings, which hold UTF-8 text, while a Go
string holds any bytes; the test is that of Go's `utf8.ValidString`: one to
four bytes per code point, no overlong form, no surrogate, nothing above
U+10FFFF. -/
def validUTF8 : List Byte → Bool
  | [] => true
  | b0 :: rest =>
    if b0.val < 0x80 then validUTF8 rest
    else if 0xC2 ≤ b0.val ∧ b0.val ≤ 0xDF then
      match rest with
      | b1 :: rest1 => isContinuation b1 && validUTF8 rest1
      | _ => false
    else if 0xE0 ≤ b0.val ∧ b0.val ≤ 0xEF then
      match rest with
      | b1 :: b2 :: rest2 =>
        decide ((if b0.val = 0xE0 then 0xA0 else 0x80) ≤ b1.val ∧
                b1.val ≤ (if b0.val = 0xED then 0x9F else 0xBF)) &&
          isContinuation b2 && validUTF8 rest2
      | _ => false
    else if 0xF0 ≤ b0.val ∧ b0.val ≤ 0xF4 then
      match rest with
      | b1 :: b2 :: b3 :: rest3 =>
        decide ((if b0.val = 0xF0 then 0x90 else 0x80) ≤ b1.val ∧
                b1.val ≤ (if b0.val = 0xF4 then 0x8F else 0xBF)) &&
          isContinuation b2 && isContinuation b3 && validUTF8 rest3
      | _ => false
    else false

/-- Every string of a `Resource` can be represented: `Type` and every key
and value of `Labels` are valid UTF-8. -/
def Resource.stringsValid (r : Resource) : Bool :=
  validUTF8 r.Type_ &&
    match r.Labels with
    | none => true
    | some a => a.entries.all (fun e => validUTF8 e.1 && validUTF8 e.2)

/-- Modelled from the spec: a string field read off the wire that is not
valid UTF-8 is malformed input. The error does not stop the parse: the field
is stored, the first such error is remembered and reported at the end. -/
def noteString (s : GoString) (later : Option CodecError) : Option CodecError :=
  if validUTF8 s then later
  else
    match later with
    | some e => some e
    | none => some .invalidEncoding

/-- Modelled from the spec: base-128 varint encoding, least significant group
first, the high bit marking continuation. The first argument bounds the number
of groups. -/
def encodeVarintAux : Nat → Nat → List Byte
  | 0, _ => []
  | fuel + 1, n =>
    if h : n < 128 then [⟨n, by omega⟩]
    else ⟨n % 128 + 128, by omega⟩ :: encodeVarintAux fuel (n / 128)

/-- Modelled from the spec: the varint of a natural number. -/
def encodeVarint (n : Nat) : List Byte :=
  encodeVarintAux (n + 1) n

/-- Modelled from the spec: read one varint from the front of a byte stream;
`none` when the stream ends before the varint does. -/
def decodeVarint : List Byte → Option (Nat × List Byte)
  | [] => none
  | b :: rest =>
    if b.val < 128 then some (b.val, rest)
    else
      match decodeVarint rest with
      | none => none
      | some (n, rest1) => some (b.val - 128 + 128 * n, rest1)

/-- Modelled from the spec: a length-delimited field (wire type 2) is the
tag `number * 8 + 2`, the length and the bytes. -/
def encodeBytesField (number : Nat) (s : List Byte) : List Byte :=
  encodeVarint (number * 8 + 2) ++ encodeVarint s.length ++ s

/-- Modelled from the spec: one `labels` entry is field 2 holding a map-entry
message with the key as field 1 and the value as field 2. -/
def encodeEntry (k v : GoString) : List Byte :=
  encodeBytesField 2 (encodeBytesField 1 k ++ encodeBytesField 2 v)

/-- Modelled from the spec: the order in which `labels` entries are emitted;
with the deterministic flag the entries are sorted by key (bytewise), without
it they come in the iteration order of the map. -/
def labelEntries (deterministic : Bool) : GoMap → List (Σ _ : GoString, GoString)
  | none => []
  | some a =>
    if deterministic then a.entries.insertionSort (fun x y => x.1 ≤ y.1)
    else a.entries

/-- Modelled from the spec: the wire bytes of a `Resource`: `type` as field
1 (left out when empty, proto3), every `labels` entry as field 2, then the
preserved unknown bytes. -/
def encodeResource (deterministic : Bool) (r : Resource) : List Byte :=
  (if r.Type_ = [] then [] else encodeBytesField 1 r.Type_) ++
    (labelEntries deterministic r.Labels).flatMap (fun e => encodeEntry e.1 e.2) ++
    r.XXX_unrecognized.getD []

/-- One field read off a byte stream: field number, wire type, payload (for
wire type 2 the delimited bytes, otherwise the value bytes) and all bytes of
the field, tag included. -/
structure WireField where
  number : Nat
  wireType : Nat
  payload : List Byte
  raw : List Byte
deriving DecidableEq, Repr

/-- Exactly `n` bytes off the front of a stream, if there are that many. -/
def takeExact (n : Nat) (bs : List Byte) : Option (List Byte × List Byte) :=
  if n ≤ bs.length then some (bs.take n, bs.drop n) else none

/-- Modelled from the spec: read one tag/length/value triple. The tag is a
varint, `tag / 8` the field number and `tag % 8` the wire type (0 varint,
1 eight bytes, 2 length-delimited, 5 four bytes). A stream that ends early is
`truncated`; field number 0 and the other wire types are `invalidEncoding`. -/
def readField (bs : List Byte) : Except CodecError (WireField × List Byte) :=
  match decodeVarint bs with
  | none => .error .truncated
  | some (t, rest) =>
    if t / 8 = 0 then .error .invalidEncoding
    else if t % 8 = 0 then
      match decodeVarint rest with
      | none => .error .truncated
      | some (_, rest1) =>
        .ok ({ number := t / 8, wireType := 0,
               payload := rest.take (rest.length - rest1.length),
               raw := bs.take (bs.length - rest1.length) }, rest1)
    else if t % 8 = 1 then
      match takeExact 8 rest with
      | none => .error .truncated
      | some (p, rest1) =>
        .ok ({ number := t / 8, wireType := 1, payload := p,
               raw := bs.take (bs.length - rest1.length) }, rest1)
    else if t % 8 = 2 then
      match decodeVarint rest with
      | none => .error .truncated
      | some (n, rest1) =>
        match takeExact n rest1 with
        | none => .error .truncated
        | some (p, rest2) =>
          .ok ({ number := t / 8, wireType := 2, payload := p,
                 raw := bs.take (bs.length - rest2.length) }, rest2)
    else if t % 8 = 5 then
      match takeExact 4 rest with
      | none => .error .truncated
      | some (p, rest1) =>
        .ok ({ number := t / 8, wireType := 5, payload := p,
               raw := bs.take (bs.length - rest1.length) }, rest1)
    else .error .invalidEncoding

/-- Modelled from the spec: parse a map-entry message into key and value,
starting from the pair given (both empty for a fresh entry). Unknown fields of
an entry are skipped. A key or value that is not valid UTF-8 is stored and
noted in the pending error. The first argument bounds the number of fields
read; the length of the stream is always enough. -/
def unmarshalEntry : Nat → List Byte → GoString × GoString → Option CodecError →
    Except CodecError ((GoString × GoString) × Option CodecError)
  | 0, bs, kv, later => if bs = [] then .ok (kv, later) else .error .invalidEncoding
  | fuel + 1, bs, kv, later =>
    if bs = [] then .ok (kv, later)
    else
      match readField bs with
      | .error e => .error e
      | .ok (f, rest) =>
        if f.number = 1 then
          if f.wireType = 2 then
            unmarshalEntry fuel rest (f.payload, kv.2) (noteString f.payload later)
          else .error .typeMismatch
        else if f.number = 2 then
          if f.wireType = 2 then
            unmarshalEntry fuel rest (kv.1, f.payload) (noteString f.payload later)
          else .error .typeMismatch
        else unmarshalEntry fuel rest kv later

/-- Modelled from the spec: parse wire bytes into the fields of a `Resource`.
Field 1 replaces `Type`, every field 2 stores one `Labels` entry, a field with
another number is kept verbatim in `XXX_unrecognized`; a recognized number
with the wrong wire type is a `typeMismatch`. On an error the fields parsed so
far stay. A string that is not valid UTF-8 is stored and the pending error
(last argument) is reported when the stream ends. The first argument bounds
the number of fields read; the length of the stream is always enough. -/
def unmarshalFields : Nat → List Byte → Resource → Option CodecError →
    Resource × Option CodecError
  | 0, bs, m, later => if bs = [] then (m, later) else (m, some .invalidEncoding)
  | fuel + 1, bs, m, later =>
    if bs = [] then (m, later)
    else
      match readField bs with
      | .error e => (m, some e)
      | .ok (f, rest) =>
        if f.number = 1 then
          if f.wireType = 2 then
            unmarshalFields fuel rest { m with Type_ := f.payload } (noteString f.payload later)
          else (m, some .typeMismatch)
        else if f.number = 2 then
          if f.wireType = 2 then
            match unmarshalEntry f.payload.length f.payload ([], []) later with
            | .error e => (m, some e)
            | .ok ((k, v), later1) =>
              unmarshalFields fuel rest { m with Labels := m.Labels.set k v } later1
          else (m, some .typeMismatch)
        else
          unmarshalFields fuel rest
            { m with XXX_unrecognized := some (m.XXX_unrecognized.getD [] ++ f.raw) } later

/-- Modelled from the spec: merge for maps, entries of the source are added
to or overwrite same-keyed entries of the destination. -/
def mergeLabels (dst src : GoMap) : GoMap :=
  match src with
  | none => dst
  | some a => a.entries.foldl (fun acc e => acc.set e.1 e.2) dst

/-- Modelled from the spec: the shared reflection-driven codec, which is not
part of the source file, for the schema of `Resource`. `Marshal` appends the
wire bytes to the buffer given and fails with an encoding error when a string
of the message cannot be represented (is not valid UTF-8); `Unmarshal` parses
into the existing fields; `Merge` overwrites `Type` when the source's is
non-empty and unites the maps; `Size` is the encoded length; `DiscardUnknown`
drops the preserved bytes. -/
def specCodec : InternalMessageInfo CodecError Ptr where
  Unmarshal m b :=
    match m with
    | none => (none, some .absent)
    | some r =>
      (some (unmarshalFields b.length b r none).1, (unmarshalFields b.length b r none).2)
  Marshal b m deterministic :=
    match m with
    | none => (none, (b, some .absent))
    | some r =>
      (some r, (b ++ encodeResource deterministic r,
        if r.stringsValid then none else some .encoding))
  Merge dst src :=
    match dst, src with
    | some d, some s =>
      some { d with Type_ := if s.Type_ = [] then d.Type_ else s.Type_,
                    Labels := mergeLabels d.Labels s.Labels }
    | d, _ => d
  Size m :=
    match m with
    | none => (none, 0)
    | some r => (some r, (encodeResource false r).length)
  DiscardUnknown m := m.map (fun r => { r with XXX_unrecognized := none })

/-- The preserved unknown bytes are well formed: they parse as a sequence of
fields none of which has a recognized number (1 or 2). This is what `Unmarshal`
stores. The first argument bounds the number of fields read. -/
def unknownOnly : Nat → List Byte → Bool
  | 0, bs => decide (bs = [])
  | fuel + 1, bs =>
    if bs = [] then true
    else
      match readField bs with
      | .error _ => false
      | .ok (f, rest) => decide (f.number ≠ 1) && decide (f.number ≠ 2) && unknownOnly fuel rest

/-- A `Resource` whose preserved unknown bytes are absent or well formed. -/
def Resource.unknownWellFormed (r : Resource) : Bool :=
  match r.XXX_unrecognized with
  | none => true
  | some u => unknownOnly u.length u

/-- The scenario of the spec: `Resource{type: "container", labels: {"env":
"prod", "zone": "us-east"}}`. -/
def containerResource : Resource :=
  { Type_ := lit "container",
    Labels := some (AList.insert (lit "env") (lit "prod")
      (AList.insert (lit "zone") (lit "us-east") ∅)) }

end ResourceV1

/-! # Theorems -/

namespace ResourceV1

/-! ## Lemmas on the wire format -/

theorem decodeVarint_encodeVarintAux (fuel n : Nat) (rest : List Byte) (h : n < fuel) :
    decodeVarint (encodeVarintAux fuel n ++ rest) = some (n, rest) := by
  induction fuel generalizing n with
  | zero => omega
  | succ fuel ih =>
    unfold encodeVarintAux
    by_cases hn : n < 128
    · simp [hn, decodeVarint]
    · have h1 : n / 128 < fuel := by omega
      simp only [hn, dite_false, List.cons_append, decodeVarint]
      rw [ih _ h1]
      have h2 : ¬ (n % 128 + 128 < 128) := by omega
      simp only [h2, if_false]
      congr 2
      omega

theorem decodeVarint_encodeVarint (n : Nat) (rest : List Byte) :
    decodeVarint (encodeVarint n ++ rest) = some (n, rest) :=
  decodeVarint_encodeVarintAux (n + 1) n rest (Nat.lt_succ_self n)

theorem encodeVarint_length_pos (n : Nat) : 0 < (encodeVarint n).length := by
  unfold encodeVarint encodeVarintAux
  split <;> simp

theorem decodeVarint_suffix {bs rest : List Byte} {n : Nat}
    (h : decodeVarint bs = some (n, rest)) :
    ∃ pre, pre ≠ [] ∧ bs = pre ++ rest := by
  induction bs generalizing n rest with
  | nil => simp [decodeVarint] at h
  | cons b bs ih =>
    unfold decodeVarint at h
    split at h
    · simp only [Option.some.injEq, Prod.mk.injEq] at h
      exact ⟨[b], by simp, by simp [h.2]⟩
    · split at h
      · simp at h
      · rename_i n1 rest1 heq
        simp only [Option.some.injEq, Prod.mk.injEq] at h
        obtain ⟨pre, _, hpre⟩ := ih heq
        exact ⟨b :: pre, by simp, by simp [hpre, h.2]⟩

theorem take_of_append (pre rest : List Byte) :
    (pre ++ rest).take ((pre ++ rest).length - rest.length) = pre := by
  simp

theorem takeExact_split {n : Nat} {bs p rest : List Byte}
    (h : takeExact n bs = some (p, rest)) : bs = p ++ rest ∧ p.length = n := by
  unfold takeExact at h
  split at h
  · simp only [Option.some.injEq, Prod.mk.injEq] at h
    obtain ⟨h1, h2⟩ := h
    subst h1 h2
    refine ⟨(List.take_append_drop n bs).symm, ?_⟩
    simp
    omega
  · simp at h

theorem takeExact_append (p rest : List Byte) :
    takeExact p.length (p ++ rest) = some (p, rest) := by
  simp [takeExact]

theorem readField_split {bs rest : List Byte} {f : WireField}
    (h : readField bs = .ok (f, rest)) :
    bs = f.raw ++ rest ∧ f.raw ≠ [] := by
  unfold readField at h
  split at h
  · simp at h
  · rename_i t rest0 h0
    obtain ⟨pre0, hne0, hbs⟩ := decodeVarint_suffix h0
    split_ifs at h
    · split at h
      · simp at h
      · rename_i x rest1 h1
        obtain ⟨pre1, _, hr⟩ := decodeVarint_suffix h1
        simp only [Except.ok.injEq, Prod.mk.injEq] at h
        obtain ⟨hf, hrest⟩ := h
        subst hf hrest
        have e : bs = (pre0 ++ pre1) ++ rest1 := by rw [hbs, hr]; simp
        simp only
        rw [e, take_of_append]
        exact ⟨rfl, by simp [hne0]⟩
    · split at h
      · simp at h
      · rename_i p rest1 h1
        obtain ⟨hr, _⟩ := takeExact_split h1
        simp only [Except.ok.injEq, Prod.mk.injEq] at h
        obtain ⟨hf, hrest⟩ := h
        subst hf hrest
        have e : bs = (pre0 ++ p) ++ rest1 := by rw [hbs, hr]; simp
        simp only
        rw [e, take_of_append]
        exact ⟨rfl, by simp [hne0]⟩
    · split at h
      · simp at h
      · rename_i n rest1 h1
        obtain ⟨pre1, _, hr⟩ := decodeVarint_suffix h1
        split at h
        · simp at h
        · rename_i p rest2 h2
          obtain ⟨hr2, _⟩ := takeExact_split h2
          simp only [Except.ok.injEq, Prod.mk.injEq] at h
          obtain ⟨hf, hrest⟩ := h
          subst hf hrest
          have e : bs = (pre0 ++ pre1 ++ p) ++ rest2 := by rw [hbs, hr, hr2]; simp
          simp only
          rw [e, take_of_append]
          exact ⟨rfl, by simp [hne0]⟩
    · split at h
      · simp at h
      · rename_i p rest1 h1
        obtain ⟨hr, _⟩ := takeExact_split h1
        simp only [Except.ok.injEq, Prod.mk.injEq] at h
        obtain ⟨hf, hrest⟩ := h
        subst hf hrest
        have e : bs = (pre0 ++ p) ++ rest1 := by rw [hbs, hr]; simp
        simp only
        rw [e, take_of_append]
        exact ⟨rfl, by simp [hne0]⟩

theorem readField_shrinks {bs rest : List Byte} {f : WireField}
    (h : readField bs = .ok (f, rest)) : rest.length < bs.length := by
  obtain ⟨h1, h2⟩ := readField_split h
  have : 0 < f.raw.length := List.length_pos.mpr h2
  rw [h1, List.length_append]
  omega

theorem unmarshalFields_nil (fuel : Nat) (m : Resource) (later : Option CodecError) :
    unmarshalFields fuel [] m later = (m, later) := by
  cases fuel <;> simp [unmarshalFields]

theorem unmarshalEntry_nil (fuel : Nat) (kv : GoString × GoString)
    (later : Option CodecError) :
    unmarshalEntry fuel [] kv later = .ok (kv, later) := by
  cases fuel <;> simp [unmarshalEntry]

theorem unknownOnly_nil (fuel : Nat) : unknownOnly fuel [] = true := by
  cases fuel <;> simp [unknownOnly]

theorem unmarshalFields_fuel (f1 f2 : Nat) (bs : List Byte) (m : Resource)
    (later : Option CodecError) (h1 : bs.length ≤ f1) (h2 : bs.length ≤ f2) :
    unmarshalFields f1 bs m later = unmarshalFields f2 bs m later := by
  induction f1 generalizing f2 bs m later with
  | zero =>
    have : bs = [] := List.length_eq_zero.mp (by omega)
    subst this
    rw [unmarshalFields_nil, unmarshalFields_nil]
  | succ f1 ih =>
    cases f2 with
    | zero =>
      have : bs = [] := List.length_eq_zero.mp (by omega)
      subst this
      rw [unmarshalFields_nil, unmarshalFields_nil]
    | succ f2 =>
      unfold unmarshalFields
      by_cases hb : bs = []
      · simp [hb]
      · simp only [hb, if_false]
        cases hr : readField bs with
        | error e => rfl
        | ok p =>
          obtain ⟨f, rest⟩ := p
          have hlt := readField_shrinks hr
          have e1 : rest.length ≤ f1 := by omega
          have e2 : rest.length ≤ f2 := by omega
          simp only
          split_ifs
          · exact ih f2 rest _ _ e1 e2
          · rfl
          · split
            · rfl
            · exact ih f2 rest _ _ e1 e2
          · rfl
          · exact ih f2 rest _ _ e1 e2

theorem unmarshalEntry_fuel (f1 f2 : Nat) (bs : List Byte) (kv : GoString × GoString)
    (later : Option CodecError) (h1 : bs.length ≤ f1) (h2 : bs.length ≤ f2) :
    unmarshalEntry f1 bs kv later = unmarshalEntry f2 bs kv later := by
  induction f1 generalizing f2 bs kv later with
  | zero =>
    have : bs = [] := List.length_eq_zero.mp (by omega)
    subst this
    rw [unmarshalEntry_nil, unmarshalEntry_nil]
  | succ f1 ih =>
    cases f2 with
    | zero =>
      have : bs = [] := List.length_eq_zero.mp (by omega)
      subst this
      rw [unmarshalEntry_nil, unmarshalEntry_nil]
    | succ f2 =>
      unfold unmarshalEntry
      by_cases hb : bs = []
      · simp [hb]
      · simp only [hb, if_false]
        cases hr : readField bs with
        | error e => rfl
        | ok p =>
          obtain ⟨f, rest⟩ := p
          have hlt := readField_shrinks hr
          have e1 : rest.length ≤ f1 := by omega
          have e2 : rest.length ≤ f2 := by omega
          simp only
          split_ifs
          · exact ih f2 rest _ _ e1 e2
          · rfl
          · exact ih f2 rest _ _ e1 e2
          · rfl
          · exact ih f2 rest _ _ e1 e2

theorem unknownOnly_fuel (f1 f2 : Nat) (bs : List Byte)
    (h1 : bs.length ≤ f1) (h2 : bs.length ≤ f2) :
    unknownOnly f1 bs = unknownOnly f2 bs := by
  induction f1 generalizing f2 bs with
  | zero =>
    have : bs = [] := List.length_eq_zero.mp (by omega)
    subst this
    rw [unknownOnly_nil, unknownOnly_nil]
  | succ f1 ih =>
    cases f2 with
    | zero =>
      have : bs = [] := List.length_eq_zero.mp (by omega)
      subst this
      rw [unknownOnly_nil, unknownOnly_nil]
    | succ f2 =>
      unfold unknownOnly
      by_cases hb : bs = []
      · simp [hb]
      · simp only [hb, if_false]
        cases hr : readField bs with
        | error e => rfl
        | ok p =>
          obtain ⟨f, rest⟩ := p
          have hlt := readField_shrinks hr
          have e1 : rest.length ≤ f1 := by omega
          have e2 : rest.length ≤ f2 := by omega
          simp only
          rw [ih f2 rest e1 e2]

/-- One step of the field loop, free of the bound. -/
theorem unmarshalFields_step {bs rest : List Byte} {f : WireField} (m : Resource)
    (later : Option CodecError)
    (fuel : Nat) (hfuel : bs.length ≤ fuel) (hr : readField bs = .ok (f, rest)) :
    unmarshalFields fuel bs m later =
      if f.number = 1 then
        if f.wireType = 2 then
          unmarshalFields rest.length rest { m with Type_ := f.payload }
            (noteString f.payload later)
        else (m, some .typeMismatch)
      else if f.number = 2 then
        if f.wireType = 2 then
          match unmarshalEntry f.payload.length f.payload ([], []) later with
          | .error e => (m, some e)
          | .ok ((k, v), later1) =>
            unmarshalFields rest.length rest { m with Labels := m.Labels.set k v } later1
        else (m, some .typeMismatch)
      else
        unmarshalFields rest.length rest
          { m with XXX_unrecognized := some (m.XXX_unrecognized.getD [] ++ f.raw) } later := by
  have hlt := readField_shrinks hr
  have hb : bs ≠ [] := by
    intro h
    rw [h] at hlt
    simp at hlt
  cases fuel with
  | zero => omega
  | succ fuel =>
    have e1 : rest.length ≤ fuel := by omega
    rw [unmarshalFields]
    simp only [hb, if_false, hr]
    split_ifs
    · exact unmarshalFields_fuel _ _ _ _ _ e1 le_rfl
    · rfl
    · split
      · rfl
      · exact unmarshalFields_fuel _ _ _ _ _ e1 le_rfl
    · rfl
    · exact unmarshalFields_fuel _ _ _ _ _ e1 le_rfl

theorem readField_encodeBytesField (num : Nat) (hnum : 0 < num) (s rest : List Byte) :
    readField (encodeBytesField num s ++ rest) =
      .ok ({ number := num, wireType := 2, payload := s, raw := encodeBytesField num s },
           rest) := by
  have hdiv : (num * 8 + 2) / 8 = num := by omega
  have hmod : (num * 8 + 2) % 8 = 2 := by omega
  have e : encodeBytesField num s ++ rest =
      encodeVarint (num * 8 + 2) ++ (encodeVarint s.length ++ (s ++ rest)) := by
    simp [encodeBytesField]
  unfold readField
  rw [e, decodeVarint_encodeVarint]
  simp only [hdiv, hmod]
  have h0 : ¬ num = 0 := by omega
  simp only [h0, if_false]
  norm_num
  rw [decodeVarint_encodeVarint]
  simp only [takeExact_append]
  rw [← e]
  simp only [Except.ok.injEq, Prod.mk.injEq, WireField.mk.injEq, true_and, and_true]
  have hl : (encodeVarint (num * 8 + 2)).length +
      ((encodeVarint s.length).length + (s.length + rest.length)) - rest.length =
      (encodeBytesField num s).length := by
    simp only [encodeBytesField, List.length_append]
    omega
  rw [hl]
  exact List.take_left' rfl

theorem noteString_valid {s : GoString} (h : validUTF8 s = true)
    (later : Option CodecError) : noteString s later = later := by
  simp [noteString, h]

theorem unmarshalEntry_step {bs rest : List Byte} {f : WireField} (kv : GoString × GoString)
    (later : Option CodecError)
    (fuel : Nat) (hfuel : bs.length ≤ fuel) (hr : readField bs = .ok (f, rest)) :
    unmarshalEntry fuel bs kv later =
      if f.number = 1 then
        if f.wireType = 2 then
          unmarshalEntry rest.length rest (f.payload, kv.2) (noteString f.payload later)
        else .error .typeMismatch
      else if f.number = 2 then
        if f.wireType = 2 then
          unmarshalEntry rest.length rest (kv.1, f.payload) (noteString f.payload later)
        else .error .typeMismatch
      else unmarshalEntry rest.length rest kv later := by
  have hlt := readField_shrinks hr
  have hb : bs ≠ [] := by
    intro h
    rw [h] at hlt
    simp at hlt
  cases fuel with
  | zero => omega
  | succ fuel =>
    have e1 : rest.length ≤ fuel := by omega
    rw [unmarshalEntry]
    simp only [hb, if_false, hr]
    split_ifs
    · exact unmarshalEntry_fuel _ _ _ _ _ e1 le_rfl
    · rfl
    · exact unmarshalEntry_fuel _ _ _ _ _ e1 le_rfl
    · rfl
    · exact unmarshalEntry_fuel _ _ _ _ _ e1 le_rfl

theorem unmarshalEntry_encoded (k v : GoString) (fuel : Nat) (kv : GoString × GoString)
    (later : Option CodecError)
    (hfuel : (encodeBytesField 1 k ++ encodeBytesField 2 v).length ≤ fuel) :
    unmarshalEntry fuel (encodeBytesField 1 k ++ encodeBytesField 2 v) kv later =
      .ok ((k, v), noteString v (noteString k later)) := by
  rw [unmarshalEntry_step kv later fuel hfuel
    (readField_encodeBytesField 1 (by decide) k (encodeBytesField 2 v))]
  simp only [if_true]
  have h2 := readField_encodeBytesField 2 (by decide) v []
  rw [List.append_nil] at h2
  rw [unmarshalEntry_step _ _ _ le_rfl h2]
  simp [unmarshalEntry_nil]

theorem unmarshalFields_type (t rest : List Byte) (m : Resource) (later : Option CodecError)
    (fuel : Nat) (hfuel : (encodeBytesField 1 t ++ rest).length ≤ fuel) :
    unmarshalFields fuel (encodeBytesField 1 t ++ rest) m later =
      unmarshalFields rest.length rest { m with Type_ := t } (noteString t later) := by
  rw [unmarshalFields_step m later fuel hfuel
    (readField_encodeBytesField 1 (by decide) t rest)]
  simp

theorem unmarshalFields_entry (k v : GoString) (rest : List Byte) (m : Resource)
    (later : Option CodecError) (fuel : Nat)
    (hfuel : (encodeEntry k v ++ rest).length ≤ fuel) :
    unmarshalFields fuel (encodeEntry k v ++ rest) m later =
      unmarshalFields rest.length rest { m with Labels := m.Labels.set k v }
        (noteString v (noteString k later)) := by
  unfold encodeEntry at hfuel ⊢
  rw [unmarshalFields_step m later fuel hfuel
    (readField_encodeBytesField 2 (by decide) _ rest)]
  simp only [if_true]
  rw [unmarshalEntry_encoded k v _ _ _ le_rfl]
  simp

/-- Storing a list of entries with valid strings into the labels of a
message, in order; the pending error is untouched. -/
theorem unmarshalFields_entries (es : List (Σ _ : GoString, GoString)) (rest : List Byte)
    (m : Resource) (later : Option CodecError) (fuel : Nat)
    (hv : ∀ e ∈ es, validUTF8 e.1 = true ∧ validUTF8 e.2 = true)
    (hfuel : (es.flatMap (fun e => encodeEntry e.1 e.2) ++ rest).length ≤ fuel) :
    unmarshalFields fuel (es.flatMap (fun e => encodeEntry e.1 e.2) ++ rest) m later =
      unmarshalFields rest.length rest
        { m with Labels := es.foldl (fun acc e => acc.set e.1 e.2) m.Labels } later := by
  induction es generalizing m fuel with
  | nil =>
    simp only [List.flatMap_nil, List.nil_append, List.foldl_nil]
    exact unmarshalFields_fuel _ _ _ _ _ (by simpa using hfuel) le_rfl
  | cons e es ih =>
    simp only [List.flatMap_cons, List.append_assoc, List.foldl_cons] at hfuel ⊢
    obtain ⟨hk, hval⟩ := hv e (List.mem_cons_self _ _)
    rw [unmarshalFields_entry e.1 e.2 _ m later fuel hfuel]
    rw [noteString_valid hk, noteString_valid hval]
    rw [ih _ _ (fun e1 he1 => hv e1 (List.mem_cons_of_mem _ he1)) le_rfl]

theorem unmarshalFields_unknown (u : List Byte) (fuel : Nat) (hfuel : u.length ≤ fuel)
    (h : unknownOnly fuel u = true) (m : Resource) (later : Option CodecError) :
    ∃ x : GoBytes,
      unmarshalFields fuel u m later = ({ m with XXX_unrecognized := x }, later) := by
  induction fuel generalizing u m with
  | zero =>
    have : u = [] := List.length_eq_zero.mp (by omega)
    subst this
    exact ⟨m.XXX_unrecognized, by rw [unmarshalFields_nil]⟩
  | succ fuel ih =>
    by_cases hb : u = []
    · subst hb
      exact ⟨m.XXX_unrecognized, by rw [unmarshalFields_nil]⟩
    · unfold unknownOnly at h
      simp only [hb, if_false] at h
      cases hr : readField u with
      | error e => simp [hr] at h
      | ok p =>
        obtain ⟨f, rest⟩ := p
        simp only [hr, Bool.and_eq_true, decide_eq_true_eq] at h
        obtain ⟨⟨h1, h2⟩, h3⟩ := h
        have hlt := readField_shrinks hr
        have e1 : rest.length ≤ fuel := by omega
        rw [unmarshalFields_step m later _ hfuel hr]
        simp only [h1, h2, if_false]
        rw [unmarshalFields_fuel _ fuel _ _ _ le_rfl e1]
        obtain ⟨x, hx⟩ := ih rest e1 h3
          { m with XXX_unrecognized := some (m.XXX_unrecognized.getD [] ++ f.raw) }
        exact ⟨x, hx⟩

theorem GoMap.get_set (m : GoMap) (k v k1 : GoString) :
    (m.set k v).get k1 = if k1 = k then some v else m.get k1 := by
  cases m with
  | none =>
    by_cases h : k1 = k
    · subst h
      simp only [GoMap.set, GoMap.get, if_true]
      exact AList.lookup_insert _
    · simp only [GoMap.set, GoMap.get, h, if_false]
      rw [AList.lookup_insert_ne h]
      exact AList.lookup_empty k1
  | some a =>
    by_cases h : k1 = k
    · subst h
      simp only [GoMap.set, GoMap.get, if_true]
      exact AList.lookup_insert _
    · simp only [GoMap.set, GoMap.get, h, if_false]
      exact AList.lookup_insert_ne h

theorem GoMap.get_foldl_set (l : List (Σ _ : GoString, GoString)) (hl : l.NodupKeys)
    (m0 : GoMap) (k : GoString) :
    (l.foldl (fun acc e => acc.set e.1 e.2) m0).get k =
      match List.dlookup k l with
      | some v => some v
      | none => m0.get k := by
  induction l generalizing m0 with
  | nil => simp
  | cons e es ih =>
    obtain ⟨hk, hes⟩ := List.nodupKeys_cons.mp hl
    rw [List.foldl_cons, ih hes]
    by_cases h : k = e.1
    · subst h
      have hnone : List.dlookup e.1 es = none := List.dlookup_eq_none.mpr hk
      obtain ⟨ek, ev⟩ := e
      simp only at hnone ⊢
      rw [hnone, List.dlookup_cons_eq]
      simp [GoMap.get_set]
    · rw [List.dlookup_cons_ne _ _ h]
      cases List.dlookup k es with
      | some v => rfl
      | none => simp [GoMap.get_set, h]

theorem GoMap.foldl_set_isSome (l : List (Σ _ : GoString, GoString)) (a : AList _) :
    ∃ a1, l.foldl (fun acc e => GoMap.set acc e.1 e.2) (some a) = some a1 := by
  induction l generalizing a with
  | nil => exact ⟨a, rfl⟩
  | cons e es ih => exact ih _

theorem GoMap.len_foldl_set (l : List (Σ _ : GoString, GoString)) (hl : l.NodupKeys) :
    (l.foldl (fun acc e => GoMap.set acc e.1 e.2) none).len = l.length := by
  cases l with
  | nil => rfl
  | cons e es =>
    have hget := GoMap.get_foldl_set (e :: es) hl none
    rw [List.foldl_cons] at hget ⊢
    obtain ⟨a1, ha1⟩ := GoMap.foldl_set_isSome es (AList.insert e.1 e.2 ∅)
    have hs : GoMap.set none e.1 e.2 = some (AList.insert e.1 e.2 ∅) := rfl
    rw [hs, ha1] at hget
    rw [hs, ha1]
    have hperm : a1.entries.Perm (e :: es) := by
      apply List.lookup_ext a1.nodupKeys hl
      intro x y
      have := hget x
      simp only [GoMap.get, AList.lookup] at this
      rw [this]
      cases List.dlookup x (e :: es) <;> simp
    exact hperm.length_eq

theorem labelEntries_perm (d : Bool) (a : AList (fun _ : GoString => GoString)) :
    (labelEntries d (some a)).Perm a.entries := by
  unfold labelEntries
  cases d
  · simp
  · simp only [if_true]
    exact List.perm_insertionSort _ _

theorem labels_roundtrip (d : Bool) (l : GoMap) (k : GoString) :
    ((labelEntries d l).foldl (fun acc e => GoMap.set acc e.1 e.2) none).get k = l.get k ∧
    ((labelEntries d l).foldl (fun acc e => GoMap.set acc e.1 e.2) none).len = l.len := by
  cases l with
  | none => exact ⟨rfl, rfl⟩
  | some a =>
    have hp := labelEntries_perm d a
    have hn : (labelEntries d (some a)).NodupKeys := (List.perm_nodupKeys hp).mpr a.nodupKeys
    constructor
    · rw [GoMap.get_foldl_set _ hn]
      rw [List.perm_dlookup k hn a.nodupKeys hp]
      simp only [GoMap.get, AList.lookup]
      cases List.dlookup k a.entries <;> rfl
    · rw [GoMap.len_foldl_set _ hn]
      exact hp.length_eq

theorem stringsValid_type {r : Resource} (h : r.stringsValid = true) :
    validUTF8 r.Type_ = true := by
  unfold Resource.stringsValid at h
  exact (Bool.and_eq_true _ _ ▸ h).1

theorem stringsValid_entries {r : Resource} (h : r.stringsValid = true) (d : Bool) :
    ∀ e ∈ labelEntries d r.Labels, validUTF8 e.1 = true ∧ validUTF8 e.2 = true := by
  intro e he
  unfold Resource.stringsValid at h
  cases hl : r.Labels with
  | none =>
    rw [hl] at he
    simp [labelEntries] at he
  | some a =>
    rw [hl] at he h
    have hmem : e ∈ a.entries := (labelEntries_perm d a).mem_iff.mp he
    simp only [Bool.and_eq_true, List.all_eq_true] at h
    exact h.2 e hmem

theorem unmarshal_encodeResource (d : Bool) (r : Resource)
    (hs : r.stringsValid = true) (h : r.unknownWellFormed = true) :
    ∃ x : GoBytes,
      unmarshalFields (encodeResource d r).length (encodeResource d r) {} none =
        ({ Type_ := r.Type_,
           Labels := (labelEntries d r.Labels).foldl (fun acc e => GoMap.set acc e.1 e.2) none,
           XXX_unrecognized := x }, none) := by
  have hu : ∀ m : Resource, ∃ x : GoBytes,
      unmarshalFields (r.XXX_unrecognized.getD []).length (r.XXX_unrecognized.getD []) m none =
        ({ m with XXX_unrecognized := x }, none) := by
    intro m
    unfold Resource.unknownWellFormed at h
    cases hx : r.XXX_unrecognized with
    | none => exact ⟨m.XXX_unrecognized, by simp [unmarshalFields_nil]⟩
    | some u =>
      rw [hx] at h
      exact unmarshalFields_unknown u _ le_rfl h m none
  have hv := stringsValid_entries hs d
  unfold encodeResource
  by_cases ht : r.Type_ = []
  · simp only [ht, if_true, List.nil_append]
    rw [unmarshalFields_entries _ _ _ _ _ hv le_rfl]
    obtain ⟨x, hx⟩ := hu
      { ({} : Resource) with
        Labels := (labelEntries d r.Labels).foldl (fun acc e => GoMap.set acc e.1 e.2)
          ({} : Resource).Labels }
    exact ⟨x, hx⟩
  · simp only [ht, if_false, List.append_assoc]
    rw [unmarshalFields_type _ _ _ _ _ le_rfl, noteString_valid (stringsValid_type hs),
      unmarshalFields_entries _ _ _ _ _ hv le_rfl]
    obtain ⟨x, hx⟩ := hu
      { ({ ({} : Resource) with Type_ := r.Type_ } : Resource) with
        Labels := (labelEntries d r.Labels).foldl (fun acc e => GoMap.set acc e.1 e.2)
          ({} : Resource).Labels }
    exact ⟨x, hx⟩

/-! ## Worked examples -/

/-- The scenario of the spec evaluated: the deterministic wire bytes of the
container resource. -/
theorem container_wire_bytes :
    (XXX_Marshal specCodec (some containerResource) [] true).2 =
      ([0x0a, 0x09, 0x63, 0x6f, 0x6e, 0x74, 0x61, 0x69, 0x6e, 0x65, 0x72,
        0x12, 0x0b, 0x0a, 0x03, 0x65, 0x6e, 0x76, 0x12, 0x04, 0x70, 0x72, 0x6f, 0x64,
        0x12, 0x0f, 0x0a, 0x04, 0x7a, 0x6f, 0x6e, 0x65,
        0x12, 0x07, 0x75, 0x73, 0x2d, 0x65, 0x61, 0x73, 0x74], none) := by
  decide

/-- The scenario of the spec evaluated: unmarshalling the wire bytes of the
container resource into a fresh message. -/
theorem container_decoded :
    (XXX_Unmarshal specCodec (some {})
        (XXX_Marshal specCodec (some containerResource) [] true).2.1).2 = none ∧
      GetType (XXX_Unmarshal specCodec (some {})
        (XXX_Marshal specCodec (some containerResource) [] true).2.1).1 = lit "container" ∧
      (GetLabels (XXX_Unmarshal specCodec (some {})
        (XXX_Marshal specCodec (some containerResource) [] true).2.1).1).get (lit "env") =
          some (lit "prod") ∧
      (GetLabels (XXX_Unmarshal specCodec (some {})
        (XXX_Marshal specCodec (some containerResource) [] true).2.1).1).get (lit "zone") =
          some (lit "us-east") ∧
      (GetLabels (XXX_Unmarshal specCodec (some {})
        (XXX_Marshal specCodec (some containerResource) [] true).2.1).1).len = 2 := by
  decide

/-- A string field that is not valid UTF-8 is stored by `Unmarshal` and
reported as malformed input. -/
theorem unmarshal_invalid_utf8 :
    XXX_Unmarshal specCodec (some {}) [0x0a, 0x01, 0xff] =
      (some { Type_ := [0xff] }, some CodecError.invalidEncoding) := by
  decide

/-- Preserved unknown bytes that are well formed (here field 3, a varint)
travel with the message: they are emitted after the known fields and kept
again on the way back. -/
theorem roundtrip_with_unknown :
    Resource.unknownWellFormed
        { Type_ := lit "a", XXX_unrecognized := some [0x18, 0x96, 0x01] } = true ∧
      (XXX_Marshal specCodec
          (some { Type_ := lit "a", XXX_unrecognized := some [0x18, 0x96, 0x01] })
          [] false).2 = ([0x0a, 0x01, 0x61, 0x18, 0x96, 0x01], none) ∧
      XXX_Unmarshal specCodec (some {}) [0x0a, 0x01, 0x61, 0x18, 0x96, 0x01] =
        (some { Type_ := lit "a", XXX_unrecognized := some [0x18, 0x96, 0x01] }, none) := by
  decide

/-- The accessor hands the map through as it is: a nil `Labels` comes back
nil and a present empty `Labels` comes back non-nil, a difference that no read
of entries observes. -/
theorem GetLabels_keeps_nilness (t : GoString) :
    (GetLabels (some { Type_ := t, Labels := none })).isNil = true ∧
      (GetLabels (some { Type_ := t, Labels := some ∅ })).isNil = false ∧
      (GetLabels none).isNil = true :=
  ⟨rfl, rfl, rfl⟩

/-! ## The claims -/

/-- C1: `GetType` on the nil receiver returns the empty string, on a present
`Resource` it returns exactly the field `Type`, and its only result is a
string (there is no error result). -/
theorem GetType_contract :
    GetType none = ([] : GoString) ∧ (∀ r : Resource, GetType (some r) = r.Type_) ∧
      Method.GetType.results = [GoResultType.string] := by
  refine ⟨by decide, fun r => rfl, rfl⟩

/-- C2: `GetLabels` on the nil receiver returns the nil map, which has no
entries, on a present `Resource` it returns exactly the field `Labels`, and its
only result is a map (there is no error result). -/
theorem GetLabels_contract :
    GetLabels none = none ∧ (GetLabels none).len = 0 ∧
      (∀ k, (GetLabels none).get k = none) ∧
      (∀ r : Resource, GetLabels (some r) = r.Labels) ∧
      Method.GetLabels.results = [GoResultType.mapStringString] := by
  refine ⟨rfl, rfl, fun k => rfl, fun r => rfl, rfl⟩

/-- C3: for every present `Resource`, `Reset` completes and afterwards
`GetType` is the empty string and `GetLabels` is a map without entries (length
0, every lookup misses, nothing to range over). -/
theorem Reset_then_getters (r : Resource) :
    ∃ r1 : Resource, Reset (some r) = .ok r1 ∧ GetType (some r1) = [] ∧
      (GetLabels (some r1)).len = 0 ∧ (∀ k, (GetLabels (some r1)).get k = none) ∧
      (GetLabels (some r1)).range = [] :=
  ⟨{}, rfl, rfl, rfl, fun _ => rfl, rfl⟩

/-- C4: for every present `Resource`, `Reset` completes without a panic and
leaves exactly the zero value `Resource{}`: `Type` empty, `Labels` nil,
`XXX_unrecognized` nil, `XXX_sizecache` 0, whatever the state before. -/
theorem Reset_all_fields (r : Resource) :
    Reset (some r) = .ok ({} : Resource) ∧
      Reset (some r) =
        .ok { Type_ := [], Labels := none, XXX_NoUnkeyedLiteral := (),
              XXX_unrecognized := none, XXX_sizecache := 0 } ∧
      (∀ r2 : Resource, Reset (some r2) = Reset (some r)) :=
  ⟨rfl, rfl, fun _ => rfl⟩

/-- C5: on read a nil `Labels`, a present `Labels` without entries and the
`Labels` of a nil `Resource` are indistinguishable: each has length 0, every
key lookup misses on each, and ranging over each visits nothing. -/
theorem GetLabels_nil_vs_empty (t : GoString) (u : GoBytes) (c : Int) (k : GoString) :
    let rNil : Resource :=
      { Type_ := t, Labels := none, XXX_unrecognized := u, XXX_sizecache := c }
    let rEmpty : Resource :=
      { Type_ := t, Labels := some ∅, XXX_unrecognized := u, XXX_sizecache := c }
    ((GetLabels (some rNil)).len = 0 ∧ (GetLabels (some rEmpty)).len = 0 ∧
        (GetLabels none).len = 0) ∧
      ((GetLabels (some rNil)).get k = none ∧ (GetLabels (some rEmpty)).get k = none ∧
        (GetLabels none).get k = none) ∧
      ((GetLabels (some rNil)).range = [] ∧ (GetLabels (some rEmpty)).range = [] ∧
        (GetLabels none).range = []) := by
  refine ⟨⟨rfl, rfl, rfl⟩, ⟨rfl, ?_, rfl⟩, ⟨rfl, rfl, rfl⟩⟩
  simp [GetLabels, GoMap.get]

/-- C6: for every codec, `XXX_Marshal` returns exactly what the codec's
`Marshal` returns (bytes and error) and `XXX_Unmarshal` exactly what the
codec's `Unmarshal` returns, so no error is added or dropped; among the
declared methods only these two have an `error` result. -/
theorem XXX_wrappers_pass_errors {Err Msg : Type} (info : InternalMessageInfo Err Msg)
    (m : Ptr) (b : List Byte) (d : Bool) :
    XXX_Marshal info m b d = info.Marshal b m d ∧
      XXX_Unmarshal info m b = info.Unmarshal m b ∧
      Method.all.filter (fun op => decide (GoResultType.error ∈ op.results)) =
        [Method.XXX_Unmarshal, Method.XXX_Marshal] ∧
      (∀ op : Method, op ∈ Method.all) := by
  refine ⟨rfl, rfl, by decide, ?_⟩
  intro op
  cases op <;> decide

/-- C7 as stated fails: (1) for `Type` "\xff" `XXX_Marshal` returns an
encoding error, so marshaling does not succeed for every `Type` string; (2)
for `Type` "a" with the preserved bytes `0a 01 62` marshal and unmarshal both
succeed but the type comes back as "b"; hence (3) the round trip does not hold
for every `Resource`. -/
theorem roundtrip_fails_as_stated :
    (XXX_Marshal specCodec (some { Type_ := [0xff] }) [] true).2 =
        ([0x0a, 0x01, 0xff], some CodecError.encoding) ∧
      ((XXX_Marshal specCodec
            (some { Type_ := lit "a", XXX_unrecognized := some [0x0a, 0x01, 0x62] })
            [] true).2 = ([0x0a, 0x01, 0x61, 0x0a, 0x01, 0x62], none) ∧
        (XXX_Unmarshal specCodec (some {}) [0x0a, 0x01, 0x61, 0x0a, 0x01, 0x62]).2 = none ∧
        GetType (XXX_Unmarshal specCodec (some {})
          [0x0a, 0x01, 0x61, 0x0a, 0x01, 0x62]).1 = lit "b" ∧
        lit "b" ≠ lit "a") ∧
      ¬ (∀ (r : Resource) (d : Bool), ∃ (bytes : List Byte) (r1 : Resource),
          XXX_Marshal specCodec (some r) [] d = (some r, (bytes, none)) ∧
          XXX_Unmarshal specCodec (some {}) bytes = (some r1, none) ∧
          GetType (some r1) = GetType (some r) ∧
          (∀ k, (GetLabels (some r1)).get k = (GetLabels (some r)).get k) ∧
          (GetLabels (some r1)).len = (GetLabels (some r)).len) := by
  refine ⟨by decide, by decide, ?_⟩
  intro hall
  obtain ⟨bytes, r1, hm, _⟩ := hall { Type_ := [0xff] } true
  have h2 : (XXX_Marshal specCodec (some { Type_ := [0xff] }) [] true).2.2 = none := by
    rw [hm]
  revert h2
  decide

/-- C7, amended: for every `Resource` whose `Type` and `Labels` keys and
values are valid UTF-8 and whose preserved unknown bytes are absent or well
formed, and for either value of the deterministic flag, `XXX_Marshal`
succeeds, and `XXX_Unmarshal` of the bytes into a fresh `Resource` succeeds
and yields the same `Type` and the same `Labels` as an unordered mapping
(every key looks up the same, the number of entries is the same). -/
theorem Marshal_Unmarshal_roundtrip (r : Resource) (d : Bool)
    (hs : r.stringsValid = true) (hu : r.unknownWellFormed = true) :
    ∃ (bytes : List Byte) (r1 : Resource),
      XXX_Marshal specCodec (some r) [] d = (some r, (bytes, none)) ∧
      XXX_Unmarshal specCodec (some {}) bytes = (some r1, none) ∧
      GetType (some r1) = GetType (some r) ∧
      (∀ k, (GetLabels (some r1)).get k = (GetLabels (some r)).get k) ∧
      (GetLabels (some r1)).len = (GetLabels (some r)).len := by
  obtain ⟨x, hx⟩ := unmarshal_encodeResource d r hs hu
  refine ⟨encodeResource d r,
    { Type_ := r.Type_,
      Labels := (labelEntries d r.Labels).foldl (fun acc e => GoMap.set acc e.1 e.2) none,
      XXX_unrecognized := x }, ?_, ?_, ?_, ?_, ?_⟩
  · simp [XXX_Marshal, specCodec, hs]
  · simp only [XXX_Unmarshal, specCodec, hx]
  · rfl
  · intro k
    exact (labels_roundtrip d r.Labels k).1
  · exact (labels_roundtrip d r.Labels []).2

/-- C7, the scenario of the spec: `Resource{type: "container", labels:
{"env": "prod", "zone": "us-east"}}` has valid strings and no preserved
bytes; marshalled deterministically and unmarshalled again it gives back both
fields. -/
theorem Marshal_Unmarshal_roundtrip_container :
    containerResource.stringsValid = true ∧ containerResource.unknownWellFormed = true ∧
      ∃ (bytes : List Byte) (r1 : Resource),
        XXX_Marshal specCodec (some containerResource) [] true =
          (some containerResource, (bytes, none)) ∧
        XXX_Unmarshal specCodec (some {}) bytes = (some r1, none) ∧
        GetType (some r1) = GetType (some containerResource) ∧
        (∀ k, (GetLabels (some r1)).get k = (GetLabels (some containerResource)).get k) ∧
        (GetLabels (some r1)).len = (GetLabels (some containerResource)).len :=
  ⟨by decide, by decide,
    Marshal_Unmarshal_roundtrip containerResource true (by decide) (by decide)⟩

/-- C8: the struct tags declare `Type` as field 1, wire kind bytes, optional,
proto3, named "type", and `Labels` as field 2, wire kind bytes, repeated,
proto3, named "labels", with map key field 1 (bytes, "key") and map value
field 2 (bytes, "value"); the two field numbers differ and no other field has
a protobuf tag. -/
theorem Resource_wire_metadata :
    wireMetaOf "Type" "protobuf" =
        some { wireKind := "bytes", number := 1, rule := some .optional,
               origName := some "type", proto3 := true } ∧
      wireMetaOf "Labels" "protobuf" =
        some { wireKind := "bytes", number := 2, rule := some .repeated,
               origName := some "labels", proto3 := true } ∧
      wireMetaOf "Labels" "protobuf_key" =
        some { wireKind := "bytes", number := 1, rule := some .optional,
               origName := some "key", proto3 := true } ∧
      wireMetaOf "Labels" "protobuf_val" =
        some { wireKind := "bytes", number := 2, rule := some .optional,
               origName := some "value", proto3 := true } ∧
      (wireMetaOf "Type" "protobuf").map WireMeta.number ≠
        (wireMetaOf "Labels" "protobuf").map WireMeta.number ∧
      (Resource_fields.filter (fun f => (f.lookup "protobuf").isSome)).map StructField.name =
        ["Type", "Labels"] ∧
      (Resource_fields.filter
          (fun f => (f.lookup "protobuf_key").isSome || (f.lookup "protobuf_val").isSome)).map
        StructField.name = ["Labels"] ∧
      Resource_fields.map StructField.name =
        ["Type", "Labels", "XXX_NoUnkeyedLiteral", "XXX_unrecognized", "XXX_sizecache"] := by
  decide

/-- C9: from any registry state, package initialisation associates the name
`opencensus.proto.resource.v1.Resource` with the `Resource` structure, the
name `...Resource.LabelsEntry` with the string-to-string map type and the file
name with the blob that `Descriptor` returns, changes no other association,
and the three names are pairwise distinct. -/
theorem packageInit_registers (reg : Registry) (n : GoString) (m : Ptr) :
    (packageInit reg).types n =
        (if n = lit "opencensus.proto.resource.v1.Resource" then some GoTypeRef.ptrResource
         else reg.types n) ∧
      (packageInit reg).mapTypes n =
        (if n = lit "opencensus.proto.resource.v1.Resource.LabelsEntry"
         then some GoTypeRef.mapStringString else reg.mapTypes n) ∧
      (packageInit reg).files n =
        (if n = lit "opencensus/proto/resource/v1/resource.proto"
         then some (Descriptor m).1 else reg.files n) ∧
      lit "opencensus.proto.resource.v1.Resource" ≠
        lit "opencensus.proto.resource.v1.Resource.LabelsEntry" ∧
      lit "opencensus.proto.resource.v1.Resource" ≠
        lit "opencensus/proto/resource/v1/resource.proto" ∧
      lit "opencensus.proto.resource.v1.Resource.LabelsEntry" ≠
        lit "opencensus/proto/resource/v1/resource.proto" := by
  refine ⟨rfl, rfl, rfl, by decide, by decide, by decide⟩

/-- C10: `Descriptor` returns the pair (`fileDescriptor_584700775a2fc762`,
`[0]`) for every receiver; the blob has 234 bytes, begins with 0x1f 0x8b 0x08
and its last four bytes, little-endian, are 374 = 0x176. -/
theorem Descriptor_blob (m : Ptr) :
    Descriptor m = (fileDescriptor_584700775a2fc762, [0]) ∧
      fileDescriptor_584700775a2fc762.length = 234 ∧
      fileDescriptor_584700775a2fc762.take 3 = [0x1f, 0x8b, 0x08] ∧
      trailerLE32 fileDescriptor_584700775a2fc762 = 374 ∧
      fileDescriptor_584700775a2fc762.drop 230 = [0x76, 0x01, 0x00, 0x00] ∧
      (374 : Nat) = 0x00000176 := by
  exact ⟨rfl, rfl, rfl, rfl, rfl, rfl⟩

end ResourceV1
